import Mathlib

/-!
Verification of the structural schema-validation engine specified for the
zod-in-30-minutes repository.  The repository's own files only declare
schemas and feed sample values to the external validation engine, so the
engine itself is modelled here from the specification (§3 data model,
§4.1 algorithm, §7 error handling) and the schemas and sample inputs are
transcribed from the repository sources.
-/

namespace SchemaEngine

/-- Modelled from the spec: path segment locating a failure inside nested structures: an object
field name or an array index. -/
inductive Seg where
  | field (name : String)
  | index (i : Nat)
deriving DecidableEq

/-- Modelled from the spec: the closed set of failure kinds of §7, absent from src/. -/
inductive IssueKind where
  | requiredButMissing
  | nullNotAllowed
  | typeMismatch
  | refinementFailed
  | literalMismatch
  | enumMismatch
  | unrecognizedKey
  | tupleLengthMismatch
  | arrayLengthConstraint
  | noUnionMemberMatched
  | unknownDiscriminator
  | recordKeyInvalid
  | recordValueInvalid
deriving DecidableEq

/-- Modelled from the spec: one recorded validation failure: a path, a failure kind, a
human-readable message, and (for aggregating kinds such as
`no_union_member_matched`) the referenced underlying failures. -/
inductive Issue where
  | mk (path : List Seg) (kind : IssueKind) (msg : String) (sub : List Issue)

def Issue.path : Issue → List Seg
  | .mk p _ _ _ => p

def Issue.kind : Issue → IssueKind
  | .mk _ k _ _ => k

def Issue.msg : Issue → String
  | .mk _ _ m _ => m

def Issue.sub : Issue → List Issue
  | .mk _ _ _ s => s

/-- Push a path segment onto the front of every issue's path, used when
descending into an object field or array element. -/
def underSeg (s : Seg) (iss : List Issue) : List Issue :=
  iss.map fun i => Issue.mk (s :: i.path) i.kind i.msg i.sub

/- Modelled from the spec: runtime values.  Mirrors the JavaScript value universe exercised by the
repository: undefined, null, strings, numbers (modelled as rationals),
booleans, dates (modelled as timestamps), Error instances, plain objects
(ordered field lists), arrays, and Map instances (ordered entry lists).
Object, array and map payloads are mutual inductives so that decidable
equality is derivable. -/
mutual
inductive Value where
  | undef
  | nullV
  | str (s : String)
  | num (q : Rat)
  | boolV (b : Bool)
  | dateV (t : Int)
  | errObj (msg : String)
  | obj (fields : VFields)
  | arr (elems : VList)
  | mapV (entries : VEntries)
inductive VFields where
  | fnil
  | fcons (name : String) (v : Value) (rest : VFields)
inductive VList where
  | vnil
  | vcons (v : Value) (rest : VList)
inductive VEntries where
  | enil
  | econs (k : Value) (v : Value) (rest : VEntries)
end

deriving instance DecidableEq for Value, VFields, VList, VEntries

def VFields.toList : VFields → List (String × Value)
  | .fnil => []
  | .fcons n v rest => (n, v) :: rest.toList

def VFields.ofList : List (String × Value) → VFields
  | [] => .fnil
  | (n, v) :: rest => .fcons n v (VFields.ofList rest)

def VList.toList : VList → List Value
  | .vnil => []
  | .vcons v rest => v :: rest.toList

def VList.ofList : List Value → VList
  | [] => .vnil
  | v :: rest => .vcons v (VList.ofList rest)

def VEntries.toList : VEntries → List (Value × Value)
  | .enil => []
  | .econs k v rest => (k, v) :: rest.toList

def VEntries.ofList : List (Value × Value) → VEntries
  | [] => .enil
  | (k, v) :: rest => .econs k v (VEntries.ofList rest)

/-- Build an object value from an ordered field list. -/
def vobj (l : List (String × Value)) : Value :=
  .obj (VFields.ofList l)

/-- Build an array value from an element list. -/
def varr (l : List Value) : Value :=
  .arr (VList.ofList l)

/-- Build a Map value from an ordered entry list. -/
def vmap (l : List (Value × Value)) : Value :=
  .mapV (VEntries.ofList l)

/-- First-occurrence lookup of a field by name, mirroring JavaScript
property access. -/
def lookupField (n : String) : List (String × Value) → Option Value
  | [] => none
  | (m, v) :: rest => if m = n then some v else lookupField n rest

def keysOf (m : List (String × Value)) : List String :=
  m.map Prod.fst

/-- Modelled from the spec: refinement predicates narrowing a primitive descriptor (§3): numeric
lower bound, string minimum length, integer-only. -/
inductive Refinement where
  | gtNum (bound : Rat)
  | minLength (n : Nat)
  | intOnly
deriving DecidableEq

def checkRefinement : Refinement → Value → Bool
  | .gtNum b, .num q => b < q
  | .gtNum _, _ => false
  | .minLength n, .str s => n ≤ s.length
  | .minLength _, _ => false
  | .intOnly, .num q => q.den == 1
  | .intOnly, _ => false

def refineMsg : Refinement → String
  | .gtNum b => "must be greater than " ++ toString b
  | .minLength n => "must contain at least " ++ toString n ++ " characters"
  | .intOnly => "must be an integer"

/-- Modelled from the spec: the unknown-key policy of an object descriptor (§3). -/
inductive KeyPolicy where
  | strip
  | passthroughP
  | strictP
deriving DecidableEq

/-- Modelled from the spec: optional length constraints of an array descriptor (§3): non-empty is
encoded as a minimum length of one. -/
structure ArrayChecks where
  minLen : Option Nat
  maxLen : Option Nat
  exactLen : Option Nat
deriving DecidableEq

/-- No length constraints. -/
def ArrayChecks.none : ArrayChecks := ⟨Option.none, Option.none, Option.none⟩

/-- Non-empty constraint, as produced by the nonempty builder. -/
def ArrayChecks.nonempty : ArrayChecks := ⟨some 1, Option.none, Option.none⟩

/- Modelled from the spec: schema descriptors (§3), an immutable, recursively composable value
describing an expected shape.  Field maps, candidate lists and
discriminated-union branch maps are mutual inductives so that structural
recursion and induction over the whole family are available. -/
mutual
inductive Desc where
  | strD (refs : List Refinement)
  | numD (refs : List Refinement)
  | boolD
  | dateD
  | errInstD
  | litD (value : Value)
  | enumD (allowed : List Value)
  | optionalD (inner : Desc)
  | nullableD (inner : Desc)
  | nullishD (inner : Desc)
  | defaultD (dflt : Value) (inner : Desc)
  | objD (fields : Fields) (policy : KeyPolicy)
  | arrD (elem : Desc) (checks : ArrayChecks)
  | tupleD (items : DescList)
  | unionD (cands : DescList)
  | dunionD (disc : String) (branches : Branches)
  | recordD (keyD : Desc) (valD : Desc)
  | mapD (keyD : Desc) (valD : Desc)
inductive Fields where
  | fnil
  | fcons (name : String) (d : Desc) (rest : Fields)
inductive DescList where
  | dnil
  | dcons (d : Desc) (rest : DescList)
inductive Branches where
  | bnil
  | bcons (tag : Value) (branch : Desc) (rest : Branches)
end

def Fields.ofList : List (String × Desc) → Fields
  | [] => .fnil
  | (n, d) :: rest => .fcons n d (Fields.ofList rest)

def fieldNames : Fields → List String
  | .fnil => []
  | .fcons n _ rest => n :: fieldNames rest

/-- First-occurrence lookup of a declared field descriptor by name. -/
def lookupFieldDesc (n : String) : Fields → Option Desc
  | .fnil => none
  | .fcons m d rest => if m = n then some d else lookupFieldDesc n rest

def DescList.ofList : List Desc → DescList
  | [] => .dnil
  | d :: rest => .dcons d (DescList.ofList rest)

def DescList.toList : DescList → List Desc
  | .dnil => []
  | .dcons d rest => d :: rest.toList

def DescList.length : DescList → Nat
  | .dnil => 0
  | .dcons _ rest => 1 + rest.length

def Branches.ofList : List (Value × Desc) → Branches
  | [] => .bnil
  | (t, d) :: rest => .bcons t d (Branches.ofList rest)

/-- First branch whose tag equals the given discriminator value. -/
def findBranch (tag : Value) : Branches → Option Desc
  | .bnil => none
  | .bcons t d rest => if t = tag then some d else findBranch tag rest

/-- Modelled from the spec: the validation outcome (§3), the normalized value or an
ordered list of issues. -/
inductive Outcome where
  | valid (v : Value)
  | invalid (issues : List Issue)

def Outcome.issuesOf : Outcome → List Issue
  | .valid _ => []
  | .invalid iss => iss

def Outcome.valueOf : Outcome → Value
  | .valid v => v
  | .invalid _ => .undef

def Outcome.isValid : Outcome → Bool
  | .valid _ => true
  | .invalid _ => false

/-- Issues produced by the array length constraints, checked after the
elements (§4.1 step 6). -/
def lengthIssues (checks : ArrayChecks) (len : Nat) : List Issue :=
  (match checks.minLen with
    | some n => if len < n then [Issue.mk [] IssueKind.arrayLengthConstraint "array too short" []] else []
    | none => []) ++
  (match checks.maxLen with
    | some n => if n < len then [Issue.mk [] IssueKind.arrayLengthConstraint "array too long" []] else []
    | none => []) ++
  (match checks.exactLen with
    | some n => if len = n then [] else [Issue.mk [] IssueKind.arrayLengthConstraint "array has wrong length" []]
    | none => [])

/-- Issue list reporting a missing required input (§4.1 step 1). -/
def requiredIssue : List Issue := [Issue.mk [] IssueKind.requiredButMissing "Required" []]

/-- Issue list reporting a null where null is not allowed (§4.1 step 2). -/
def nullIssue : List Issue := [Issue.mk [] IssueKind.nullNotAllowed "Expected non-null value" []]

/-- Issue list reporting a runtime type mismatch (§4.1 step 3). -/
def typeIssue (expected : String) : List Issue :=
  [Issue.mk [] IssueKind.typeMismatch ("Expected " ++ expected) []]

/-- Presence and null checks shared by all non-wrapper descriptors (§4.1
steps 1-2): absent input fails with required_but_missing and null input
fails with null_not_allowed; otherwise the kind-specific outcome stands. -/
def presenceGuard (v : Value) (k : Outcome) : Outcome :=
  if v = .undef then .invalid requiredIssue
  else if v = .nullV then .invalid nullIssue
  else k

/-- Apply the refinement predicates in declaration order, short-circuiting
at the first failing predicate (§4.1 step 3). -/
def refineOutcome (refs : List Refinement) (v : Value) : Outcome :=
  match refs.find? (fun r => ! checkRefinement r v) with
  | some r => .invalid [Issue.mk [] IssueKind.refinementFailed (refineMsg r) []]
  | none => .valid v

/-- String descriptor evaluation. -/
def validateStr (refs : List Refinement) (v : Value) : Outcome :=
  presenceGuard v (match v with
    | .str s => refineOutcome refs (.str s)
    | _ => .invalid (typeIssue "string"))

/-- Number descriptor evaluation. -/
def validateNum (refs : List Refinement) (v : Value) : Outcome :=
  presenceGuard v (match v with
    | .num q => refineOutcome refs (.num q)
    | _ => .invalid (typeIssue "number"))

/-- Boolean descriptor evaluation. -/
def validateBool (v : Value) : Outcome :=
  presenceGuard v (match v with
    | .boolV b => .valid (.boolV b)
    | _ => .invalid (typeIssue "boolean"))

/-- Date descriptor evaluation. -/
def validateDate (v : Value) : Outcome :=
  presenceGuard v (match v with
    | .dateV t => .valid (.dateV t)
    | _ => .invalid (typeIssue "date"))

/-- Error-instance descriptor evaluation, modelling `z.instanceof(Error)`
as used by the source's discriminated-union error branch. -/
def validateErrInst (v : Value) : Outcome :=
  presenceGuard v (match v with
    | .errObj m => .valid (.errObj m)
    | _ => .invalid (typeIssue "Error instance"))

/-- Literal descriptor evaluation (§4.1 step 4). -/
def validateLit (value : Value) (v : Value) : Outcome :=
  presenceGuard v
    (if v = value then .valid v
     else .invalid [Issue.mk [] IssueKind.literalMismatch "Expected literal value" []])

/-- Enum descriptor evaluation (§4.1 step 4). -/
def validateEnum (allowed : List Value) (v : Value) : Outcome :=
  presenceGuard v
    (if allowed.contains v then .valid v
     else .invalid [Issue.mk [] IssueKind.enumMismatch "Expected one of the allowed values" []])

/-- Issues raised by the strict unknown-key policy: one `unrecognized_key`
issue per unknown input key (§4.1 step 5). -/
def strictIssues (extra : List (String × Value)) : List Issue :=
  extra.map (fun p => Issue.mk [Seg.field p.1] IssueKind.unrecognizedKey ("Unrecognized key " ++ p.1) [])

/-- Append a validated field to an object output: a field whose validated
value is absent (undefined) is omitted from the output, matching the
engine's output for optional fields that were not supplied. -/
def consOut (n : String) (w : Value) (l : List (String × Value)) : List (String × Value) :=
  match w with
  | .undef => l
  | _ => (n, w) :: l

/-- Element issues of an array, each element's issues indexed with its
position on the path (§4.1 step 6). -/
def indexedIssues (i : Nat) : List Outcome → List Issue
  | [] => []
  | r :: rest => underSeg (Seg.index i) r.issuesOf ++ indexedIssues (i + 1) rest

/-- Decide a container outcome: valid with the normalized value when no
issues were collected, otherwise invalid with the collected issues. -/
def emptyGate (iss : List Issue) (w : Value) : Outcome :=
  if iss.isEmpty then .valid w else .invalid iss

/-- Decide a tuple outcome (§4.1 step 6): lengths must match exactly or
fail with tuple_length_mismatch; otherwise the positional results stand. -/
def tupleOutcome (items : DescList) (xs : List Value) (tr : List Issue × List Value) : Outcome :=
  if items.length = xs.length then
    (if tr.1.isEmpty then .valid (.arr (VList.ofList tr.2)) else .invalid tr.1)
  else .invalid [Issue.mk [] IssueKind.tupleLengthMismatch "tuple has wrong length" []]

/- Modelled from the spec: the evaluation entry point (§4.1), which is the external
library's engine and absent from src/.  `validate` matches an input value
against a descriptor.  Presence and null handling come first (steps 1-2);
each descriptor kind then follows the specified algorithm.  The functions
recurse structurally over the descriptor family, so evaluation is total by
construction. -/
mutual
def validate : Desc → Value → Outcome
  | .strD refs, v => validateStr refs v
  | .numD refs, v => validateNum refs v
  | .boolD, v => validateBool v
  | .dateD, v => validateDate v
  | .errInstD, v => validateErrInst v
  | .litD value, v => validateLit value v
  | .enumD allowed, v => validateEnum allowed v
  | .optionalD inner, v =>
    if v = .undef then .valid .undef else validate inner v
  | .nullableD inner, v =>
    if v = .nullV then .valid .nullV else validate inner v
  | .nullishD inner, v =>
    if v = .undef then .valid .undef
    else if v = .nullV then .valid .nullV
    else validate inner v
  | .defaultD dflt inner, v =>
    if v = .undef then validate inner dflt else validate inner v
  | .objD flds policy, v =>
    presenceGuard v (match v with
      | .obj m =>
        let fr := validateFields flds m.toList
        let extra := m.toList.filter (fun p => ! (fieldNames flds).contains p.1)
        emptyGate (fr.1 ++ (match policy with | .strictP => strictIssues extra | _ => []))
          (.obj (VFields.ofList (fr.2 ++ (match policy with | .passthroughP => extra | _ => []))))
      | _ => .invalid (typeIssue "object"))
  | .arrD elemD checks, v =>
    presenceGuard v (match v with
      | .arr vs =>
        let rs := vs.toList.map (fun x => validate elemD x)
        emptyGate (indexedIssues 0 rs ++ lengthIssues checks rs.length)
          (.arr (VList.ofList (rs.map Outcome.valueOf)))
      | _ => .invalid (typeIssue "array"))
  | .tupleD items, v =>
    presenceGuard v (match v with
      | .arr vs => tupleOutcome items vs.toList (validateTuple items vs.toList 0)
      | _ => .invalid (typeIssue "array"))
  | .unionD cands, v => presenceGuard v (validateUnion cands v [])
  | .dunionD disc branches, v =>
    presenceGuard v
      (validateBranches disc branches
        (match v with
          | .obj m => (lookupField disc m.toList).getD .undef
          | _ => .undef) v)
  | .recordD keyD valD, v =>
    presenceGuard v (match v with
      | .obj m =>
        let kIss := (m.toList.map (fun p =>
          match validate keyD (.str p.1) with
          | .valid _ => ([] : List Issue)
          | .invalid iss => [Issue.mk [Seg.field p.1] IssueKind.recordKeyInvalid "invalid record key" iss])).flatten
        let vrs := m.toList.map (fun p => (p.1, validate valD p.2))
        let vIss := (vrs.map (fun q =>
          match q.2 with
          | .valid _ => ([] : List Issue)
          | .invalid iss => [Issue.mk [Seg.field q.1] IssueKind.recordValueInvalid "invalid record value" iss])).flatten
        emptyGate (kIss ++ vIss)
          (.obj (VFields.ofList (vrs.map (fun q => (q.1, q.2.valueOf)))))
      | _ => .invalid (typeIssue "object"))
  | .mapD keyD valD, v =>
    presenceGuard v (match v with
      | .mapV es =>
        let krs := es.toList.map (fun p => validate keyD p.1)
        let vrs := es.toList.map (fun p => validate valD p.2)
        let kIss := (krs.map (fun r =>
          match r with
          | .valid _ => ([] : List Issue)
          | .invalid iss => [Issue.mk [] IssueKind.recordKeyInvalid "invalid map key" iss])).flatten
        let vIss := (vrs.map (fun r =>
          match r with
          | .valid _ => ([] : List Issue)
          | .invalid iss => [Issue.mk [] IssueKind.recordValueInvalid "invalid map value" iss])).flatten
        emptyGate (kIss ++ vIss)
          (.mapV (VEntries.ofList ((krs.zip vrs).map (fun q => (q.1.valueOf, q.2.valueOf)))))
      | _ => .invalid (typeIssue "Map"))

def validateFields : Fields → List (String × Value) → List Issue × List (String × Value)
  | .fnil, _ => ([], [])
  | .fcons n d rest, m =>
    let r := validate d ((lookupField n m).getD .undef)
    let rr := validateFields rest m
    match r with
    | .valid w => (rr.1, consOut n w rr.2)
    | .invalid iss => (underSeg (Seg.field n) iss ++ rr.1, rr.2)

def validateTuple : DescList → List Value → Nat → List Issue × List Value
  | .dnil, _, _ => ([], [])
  | .dcons _ _, [], _ => ([], [])
  | .dcons d rest, x :: xs, i =>
    let r := validate d x
    let rr := validateTuple rest xs (i + 1)
    (underSeg (Seg.index i) r.issuesOf ++ rr.1, r.valueOf :: rr.2)

def validateUnion : DescList → Value → List Issue → Outcome
  | .dnil, _, acc => .invalid [Issue.mk [] IssueKind.noUnionMemberMatched "no union member matched the input" acc]
  | .dcons d rest, v, acc =>
    match validate d v with
    | .valid w => .valid w
    | .invalid iss => validateUnion rest v (acc ++ iss)

def validateBranches (disc : String) : Branches → Value → Value → Outcome
  | .bnil, _, _ => .invalid [Issue.mk [Seg.field disc] IssueKind.unknownDiscriminator "unknown discriminator value" []]
  | .bcons t bd rest, tag, v =>
    if t = tag then validate bd v else validateBranches disc rest tag v
end

/-- Object evaluation body (§4.1 step 5), as computed by `validate` on an
object input: validate every declared field, then apply the unknown-key
policy. -/
def objBody (flds : Fields) (policy : KeyPolicy) (ml : List (String × Value)) : Outcome :=
  let fr := validateFields flds ml
  let extra := ml.filter (fun p => ! (fieldNames flds).contains p.1)
  emptyGate (fr.1 ++ (match policy with | .strictP => strictIssues extra | _ => []))
    (.obj (VFields.ofList (fr.2 ++ (match policy with | .passthroughP => extra | _ => []))))

/-- Array evaluation body (§4.1 step 6), as computed by `validate` on an
array input: validate every element with its index on the path, then check
the length constraints. -/
def arrBody (elemD : Desc) (checks : ArrayChecks) (xs : List Value) : Outcome :=
  let rs := xs.map (fun x => validate elemD x)
  emptyGate (indexedIssues 0 rs ++ lengthIssues checks rs.length)
    (.arr (VList.ofList (rs.map Outcome.valueOf)))

theorem validate_obj_eq (flds : Fields) (policy : KeyPolicy) (m : VFields) :
    validate (.objD flds policy) (.obj m) = objBody flds policy m.toList := rfl

theorem validate_arr_eq (elemD : Desc) (checks : ArrayChecks) (vs : VList) :
    validate (.arrD elemD checks) (.arr vs) = arrBody elemD checks vs.toList := rfl

theorem validate_union_eq (cands : DescList) (v : Value) :
    validate (.unionD cands) v = presenceGuard v (validateUnion cands v []) := rfl

theorem validate_dunion_eq (disc : String) (bs : Branches) (m : VFields) :
    validate (.dunionD disc bs) (.obj m)
      = validateBranches disc bs ((lookupField disc m.toList).getD .undef) (.obj m) := rfl

theorem validate_tuple_eq (items : DescList) (vs : VList) :
    validate (.tupleD items) (.arr vs)
      = tupleOutcome items vs.toList (validateTuple items vs.toList 0) := rfl

theorem validate_optional_eq (inner : Desc) (v : Value) :
    validate (.optionalD inner) v = if v = .undef then .valid .undef else validate inner v := rfl

/-- Modelled from the spec: the error raised by the throwing entry point, a single aggregate error
carrying the full issue list. -/
structure ZodError where
  issues : List Issue

/-- Modelled from the spec: the result of the non-throwing entry point, success with the normalized
value, or failure carrying the aggregate error in the return value. -/
inductive SafeParseResult where
  | success (data : Value)
  | failure (error : ZodError)

/-- Modelled from the spec: the throwing variant (`parse` / `assertValidate`), absent from
src/.  Returns the normalized
value on success; on failure raises one aggregate error carrying the full
issue list, modelled as the `Except.error` constructor. -/
def parse (d : Desc) (v : Value) : Except ZodError Value :=
  match validate d v with
  | .valid w => .ok w
  | .invalid iss => .error ⟨iss⟩

/-- Modelled from the spec: the non-throwing variant (`safeParse`), absent from src/.
All failure is communicated
through the returned value. -/
def safeParse (d : Desc) (v : Value) : SafeParseResult :=
  match validate d v with
  | .valid w => .success w
  | .invalid iss => .failure ⟨iss⟩

/-- Modelled from the spec: builder wrapping a descriptor in Optional (`.optional()`). -/
def optionalB (d : Desc) : Desc := .optionalD d

/-- Modelled from the spec: builder wrapping a descriptor in Nullable (`.nullable()`). -/
def nullableB (d : Desc) : Desc := .nullableD d

/-- Modelled from the spec: builder wrapping a descriptor in Nullish (`.nullish()`). -/
def nullishB (d : Desc) : Desc := .nullishD d

/-- Modelled from the spec: builder wrapping a descriptor in Default (`.default(v)`). -/
def defaultB (dflt : Value) (d : Desc) : Desc := .defaultD dflt d

/-- Modelled from the spec: builder switching an object descriptor to the strict
unknown-key policy (`.strict()`). -/
def strictB : Desc → Desc
  | .objD f _ => .objD f .strictP
  | d => d

/-- Modelled from the spec: builder switching an object descriptor to the passthrough
unknown-key policy (`.passthrough()`). -/
def passthroughB : Desc → Desc
  | .objD f _ => .objD f .passthroughP
  | d => d

/-- Wrap every direct field descriptor in Optional (one level only). -/
def allOptionalFields : Fields → Fields
  | .fnil => .fnil
  | .fcons n d rest => .fcons n (.optionalD d) (allOptionalFields rest)

/-- Modelled from the spec: the `.partial()` builder, wrapping every direct field
descriptor of an object descriptor in Optional, one level only. -/
def allOptional : Desc → Desc
  | .objD f p => .objD (allOptionalFields f) p
  | d => d

/- Modelled from the spec: the `.deepPartial()` builder, recursing into nested Object
and Array descriptors as well. -/
mutual
def deepOptional : Desc → Desc
  | .objD f p => .objD (deepOptionalFields f) p
  | .arrD e c => .arrD (deepOptional e) c
  | d => d
def deepOptionalFields : Fields → Fields
  | .fnil => .fnil
  | .fcons n d rest => .fcons n (.optionalD (deepOptional d)) (deepOptionalFields rest)
end

/-- Keep only the fields whose names are selected. -/
def keepFields (names : List String) : Fields → Fields
  | .fnil => .fnil
  | .fcons n d rest =>
    if names.contains n then .fcons n d (keepFields names rest)
    else keepFields names rest

/-- Drop the fields whose names are selected. -/
def dropFields (names : List String) : Fields → Fields
  | .fnil => .fnil
  | .fcons n d rest =>
    if names.contains n then dropFields names rest
    else .fcons n d (dropFields names rest)

/-- Modelled from the spec: the `.pick({...})` builder, filtering the field mapping by name. -/
def pickB (names : List String) : Desc → Desc
  | .objD f p => .objD (keepFields names f) p
  | d => d

/-- Modelled from the spec: the `.omit({...})` builder, filtering the field mapping by name. -/
def omitB (names : List String) : Desc → Desc
  | .objD f p => .objD (dropFields names f) p
  | d => d

def appendFields : Fields → Fields → Fields
  | .fnil, g => g
  | .fcons n d rest, g => .fcons n d (appendFields rest g)

/-- Modelled from the spec: the `.extend({...})` builder, combining the field mappings
with the argument's field winning on name collision. -/
def extendB (extra : Fields) : Desc → Desc
  | .objD f p => .objD (appendFields (dropFields (fieldNames extra) f) extra) p
  | d => d

/-- Modelled from the spec: the `.merge(other)` builder, combining two object
descriptors' field mappings with the argument schema's field winning on collision. -/
def mergeB (other : Desc) (d : Desc) : Desc :=
  match other with
  | .objD g _ => extendB g d
  | _ => d

/-- Extract the inner descriptor of a wrapper descriptor. -/
def innerOf : Desc → Option Desc
  | .optionalD i => some i
  | .nullableD i => some i
  | .nullishD i => some i
  | .defaultD _ i => some i
  | _ => none

/-- Extract the field mapping of an object descriptor. -/
def fieldsOfD : Desc → Option Fields
  | .objD f _ => some f
  | _ => none

/- Schemas and sample inputs transcribed from the repository sources. -/

/-- The version-1 user schema of src/unnamed/part_000. -/
def UserSchemaOne : Desc :=
  .objD (Fields.ofList [
    ("username", .strD []),
    ("age", .numD []),
    ("birthdate", .dateD),
    ("isProgrammer", .boolD)]) .strip

/-- The sample input of src/unnamed/part_000: an object carrying only a
numeric `username`. -/
def userOne : Value := vobj [("username", .num 1)]

/-- The allowed hobby values of src/src/main.ts (both the native enum and
the `as const` array spell the same three strings). -/
def hobbies : List Value := [.str "reading", .str "coding", .str "gaming"]

/-- The version-2 user schema of src/src/main.ts. -/
def UserSchema : Desc :=
  .objD (Fields.ofList [
    ("username", .strD []),
    ("age", .numD [.gtNum 0]),
    ("birthdate", .dateD),
    ("isProgrammer", .boolD),
    ("hobby", .enumD hobbies)]) .strip

/-- The version-2 sample user of src/src/main.ts. -/
def user : Value :=
  vobj [("username", .str "JDoe"), ("age", .num 30), ("birthdate", .dateV 631152000),
        ("isProgrammer", .boolV true), ("hobby", .str "coding")]

/-- The object schema that `.partial()` is applied to in src/src/main.ts. -/
def UserSchemaTwoBase : Desc :=
  .objD (Fields.ofList [
    ("username", .strD []),
    ("age", .numD [.gtNum 0]),
    ("birthdate", .dateD),
    ("isProgrammer", .boolD),
    ("hobby", .enumD hobbies)]) .strip

/-- UserSchemaTwo of src/src/main.ts: the base schema with `.partial()`. -/
def UserSchemaTwo : Desc := allOptional UserSchemaTwoBase

/-- The sample userTwo of src/src/main.ts, supplying only `username`. -/
def userTwo : Value := vobj [("username", .str "JDoe")]

/-- UserSchemaThree of src/src/main.ts: a union id, a non-empty string
array, a number tuple whose third slot is an integer greater than 4, under
the strict unknown-key policy. -/
def UserSchemaThree : Desc :=
  .objD (Fields.ofList [
    ("id", .unionD (DescList.ofList [.strD [], .numD []])),
    ("username", .strD []),
    ("friends", .arrD (.strD []) ArrayChecks.nonempty),
    ("coords", .tupleD (DescList.ofList [.numD [], .numD [], .numD [.gtNum 4, .intOnly]]))])
    .strictP

/-- The sample userThree of src/src/main.ts. -/
def userThree : Value :=
  vobj [("id", .str "123"), ("username", .str "JDoe"),
        ("friends", varr [.str "Jane", .str "Jack"]),
        ("coords", varr [.num 1, .num 2, .num 5])]

/-- userThree with the commented-out `age: 30` field added, the input the
source notes would make the strict schema fail. -/
def userThreeWithAge : Value :=
  vobj [("id", .str "123"), ("username", .str "JDoe"),
        ("friends", varr [.str "Jane", .str "Jack"]),
        ("coords", varr [.num 1, .num 2, .num 5]),
        ("age", .num 30)]

/-- The success branch of the discriminated union in src/src/main.ts. -/
def successBranch : Desc :=
  .objD (Fields.ofList [("status", .litD (.str "success")), ("data", .strD [])]) .strip

/-- The error branch of the discriminated union in src/src/main.ts. -/
def errorBranch : Desc :=
  .objD (Fields.ofList [("status", .litD (.str "error")), ("error", .errInstD)]) .strip

/-- The discriminated union on `status` of src/src/main.ts. -/
def statusUnion : Desc :=
  .dunionD "status" (Branches.ofList [(.str "success", successBranch), (.str "error", errorBranch)])

/-- UserSchemaFour of src/src/main.ts: the discriminated union nested one
level inside the `id` field, under the strict unknown-key policy. -/
def UserSchemaFour : Desc :=
  .objD (Fields.ofList [("id", statusUnion)]) .strictP

/-- The sample userFour of src/src/main.ts, taking the success branch. -/
def userFour : Value :=
  vobj [("id", vobj [("status", .str "success"), ("data", .str "123")])]

/-- UserMap of src/src/main.ts: string keys, object values. -/
def UserMap : Desc :=
  .mapD (.strD []) (.objD (Fields.ofList [("name", .strD [])]) .strip)

/-- The sample map userFive of src/src/main.ts. -/
def userFive : Value :=
  vmap [(.str "id-john", vobj [("name", .str "John")]),
        (.str "id-jack", vobj [("name", .str "jack")])]

/-- Sanity check: a strip object drops the unknown key from the output. -/
theorem strip_drops_unknown_key_check :
    validate (.objD (Fields.ofList [("a", .strD []), ("b", .numD [.gtNum 0])]) .strip)
      (vobj [("a", .str "x"), ("b", .num 3), ("c", .boolV true)])
    = .valid (vobj [("a", .str "x"), ("b", .num 3)]) := rfl

/-- Sanity check: the source's userThree passes its strict schema. -/
theorem userSchemaThree_accepts_userThree :
    validate UserSchemaThree userThree = .valid userThree := rfl

/-- Sanity check: the source's userTwo, supplying only username, passes
the partial schema, and the normalized output carries only username. -/
theorem userSchemaTwo_accepts_userTwo :
    validate UserSchemaTwo userTwo = .valid userTwo := rfl

/-- Sanity check: the source's map sample parses against UserMap. -/
theorem userMap_accepts_userFive : parse UserMap userFive = .ok userFive := rfl

/-- Sanity check: the source's version-2 user passes its schema. -/
theorem userSchema_accepts_user : validate UserSchema user = .valid user := rfl

/- Well-formedness of outcomes: an `Invalid` outcome always carries a
non-empty issue list (§3: "an ordered, non-empty list of issues"). -/

/-- An outcome is well-formed when an invalid outcome carries at least one
issue. -/
def Outcome.wf : Outcome → Prop
  | .valid _ => True
  | .invalid iss => iss ≠ []

theorem presenceGuard_wf (v : Value) (k : Outcome) (hk : k.wf) : (presenceGuard v k).wf := by
  unfold presenceGuard
  split
  · simp [Outcome.wf, requiredIssue]
  · split
    · simp [Outcome.wf, nullIssue]
    · exact hk

theorem refineOutcome_wf (refs : List Refinement) (v : Value) : (refineOutcome refs v).wf := by
  unfold refineOutcome
  split <;> simp [Outcome.wf]

theorem emptyGate_wf (iss : List Issue) (w : Value) : (emptyGate iss w).wf := by
  unfold emptyGate
  split
  · trivial
  · next h => simpa [Outcome.wf, List.isEmpty_iff] using h

theorem tupleOutcome_wf (items : DescList) (xs : List Value) (tr : List Issue × List Value) :
    (tupleOutcome items xs tr).wf := by
  unfold tupleOutcome
  split
  · split
    · trivial
    · next h => simpa [Outcome.wf, List.isEmpty_iff] using h
  · simp [Outcome.wf]

theorem validateUnion_wf : ∀ (cs : DescList) (v : Value) (acc : List Issue),
    (validateUnion cs v acc).wf
  | .dnil, _, _ => by simp [validateUnion, Outcome.wf]
  | .dcons d rest, v, acc => by
    simp only [validateUnion]
    cases h : validate d v with
    | valid w => trivial
    | invalid iss => exact validateUnion_wf rest v (acc ++ iss)

mutual

theorem validate_wf : ∀ (d : Desc) (v : Value), (validate d v).wf
  | .strD refs, v => by
    apply presenceGuard_wf
    cases v <;> first | exact refineOutcome_wf refs _ | simp [Outcome.wf, typeIssue]
  | .numD refs, v => by
    apply presenceGuard_wf
    cases v <;> first | exact refineOutcome_wf refs _ | simp [Outcome.wf, typeIssue]
  | .boolD, v => by
    apply presenceGuard_wf
    cases v <;> simp [Outcome.wf, typeIssue]
  | .dateD, v => by
    apply presenceGuard_wf
    cases v <;> simp [Outcome.wf, typeIssue]
  | .errInstD, v => by
    apply presenceGuard_wf
    cases v <;> simp [Outcome.wf, typeIssue]
  | .litD value, v => by
    apply presenceGuard_wf
    split <;> simp [Outcome.wf]
  | .enumD allowed, v => by
    apply presenceGuard_wf
    split <;> simp [Outcome.wf]
  | .optionalD inner, v => by
    simp only [validate]
    split
    · trivial
    · exact validate_wf inner v
  | .nullableD inner, v => by
    simp only [validate]
    split
    · trivial
    · exact validate_wf inner v
  | .nullishD inner, v => by
    simp only [validate]
    split
    · trivial
    · split
      · trivial
      · exact validate_wf inner v
  | .defaultD dflt inner, v => by
    simp only [validate]
    split
    · exact validate_wf inner dflt
    · exact validate_wf inner v
  | .objD flds policy, v => by
    apply presenceGuard_wf
    cases v <;> first | exact emptyGate_wf _ _ | simp [Outcome.wf, typeIssue]
  | .arrD elemD checks, v => by
    apply presenceGuard_wf
    cases v <;> first | exact emptyGate_wf _ _ | simp [Outcome.wf, typeIssue]
  | .tupleD items, v => by
    apply presenceGuard_wf
    cases v <;> first | exact tupleOutcome_wf _ _ _ | simp [Outcome.wf, typeIssue]
  | .unionD cands, v => by
    apply presenceGuard_wf
    exact validateUnion_wf cands v []
  | .dunionD disc branches, v => by
    apply presenceGuard_wf
    exact validateBranches_wf disc branches _ v
  | .recordD keyD valD, v => by
    apply presenceGuard_wf
    cases v <;> first | exact emptyGate_wf _ _ | simp [Outcome.wf, typeIssue]
  | .mapD keyD valD, v => by
    apply presenceGuard_wf
    cases v <;> first | exact emptyGate_wf _ _ | simp [Outcome.wf, typeIssue]

theorem validateBranches_wf : ∀ (disc : String) (bs : Branches) (tag : Value) (v : Value),
    (validateBranches disc bs tag v).wf
  | disc, .bnil, _, _ => by simp [validateBranches, Outcome.wf]
  | disc, .bcons t bd rest, tag, v => by
    simp only [validateBranches]
    split
    · exact validate_wf bd v
    · exact validateBranches_wf disc rest tag v

end

/-- Invalid outcomes of `validate` carry a non-empty issue list. -/
theorem validate_invalid_nonempty (d : Desc) (v : Value) (iss : List Issue)
    (h : validate d v = .invalid iss) : iss ≠ [] := by
  have hw := validate_wf d v
  rw [h] at hw
  exact hw

/-- Sanity check: the union of string and number rejects true with one
aggregating issue referencing both candidate failures. -/
theorem union_rejects_bool_check :
    validate (.unionD (DescList.ofList [.strD [], .numD []])) (.boolV true)
    = .invalid [Issue.mk [] IssueKind.noUnionMemberMatched "no union member matched the input"
        [Issue.mk [] IssueKind.typeMismatch "Expected string" [],
         Issue.mk [] IssueKind.typeMismatch "Expected number" []]] := rfl

/- Spec-side helpers used to state the union and discriminated-union
claims independently of the implementation's accumulator walk. -/

/-- Outcomes of validating the input against each union candidate, in
declared order. -/
def outcomesOf (cs : DescList) (v : Value) : List Outcome :=
  cs.toList.map (fun d => validate d v)

/-- First Valid outcome of a list of candidate outcomes, if any. -/
def firstValid : List Outcome → Option Outcome
  | [] => none
  | r :: rest =>
    match r with
    | .valid _ => some r
    | .invalid _ => firstValid rest

/-- Concatenation of all candidates' failure issues, in declared order. -/
def collectIssues (rs : List Outcome) : List Issue :=
  (rs.map Outcome.issuesOf).flatten

theorem validateUnion_eq_spec : ∀ (cs : DescList) (v : Value) (acc : List Issue),
    validateUnion cs v acc =
      match firstValid (outcomesOf cs v) with
      | some o => o
      | none => .invalid [Issue.mk [] IssueKind.noUnionMemberMatched
          "no union member matched the input" (acc ++ collectIssues (outcomesOf cs v))]
  | .dnil, v, acc => by
    simp [validateUnion, outcomesOf, DescList.toList, firstValid, collectIssues]
  | .dcons d rest, v, acc => by
    simp only [validateUnion, outcomesOf, DescList.toList, List.map_cons]
    cases h : validate d v with
    | valid w => simp [firstValid]
    | invalid iss =>
      simp only [firstValid]
      rw [validateUnion_eq_spec rest v (acc ++ iss)]
      cases hf : firstValid (outcomesOf rest v) with
      | some o => simp [outcomesOf] at hf ⊢; rw [hf]
      | none =>
        simp [outcomesOf] at hf ⊢
        rw [hf]
        simp [collectIssues, Outcome.issuesOf, List.append_assoc]

theorem validateBranches_eq_find : ∀ (disc : String) (bs : Branches) (tag v : Value),
    validateBranches disc bs tag v =
      match findBranch tag bs with
      | some bd => validate bd v
      | none => .invalid [Issue.mk [Seg.field disc] IssueKind.unknownDiscriminator
          "unknown discriminator value" []]
  | disc, .bnil, tag, v => by simp [validateBranches, findBranch]
  | disc, .bcons t bd rest, tag, v => by
    simp only [validateBranches, findBranch]
    by_cases h : t = tag
    · simp [h]
    · simp [h]
      exact validateBranches_eq_find disc rest tag v

/-- C1: for every descriptor and every input value, the non-throwing
validation entry point never raises: it always returns a normal result,
and a malformed input yields a failure value carrying a non-empty issue
list rather than a thrown error. -/
theorem safeParse_never_raises (d : Desc) (v : Value) :
    (∃ x, safeParse d v = .success x) ∨
    (∃ iss, iss ≠ [] ∧ safeParse d v = .failure ⟨iss⟩) := by
  unfold safeParse
  cases h : validate d v with
  | valid w => exact Or.inl ⟨w, rfl⟩
  | invalid iss => exact Or.inr ⟨iss, validate_invalid_nonempty d v iss h, rfl⟩

/-- C2: for every descriptor and input, the throwing variant returns the
normalized value when validate succeeds, and on failure raises exactly one
aggregate error carrying the full (non-empty) issue list from validate. -/
theorem parse_value_or_single_aggregate_error (d : Desc) (v : Value) :
    (∃ x, validate d v = .valid x ∧ parse d v = .ok x) ∨
    (∃ iss, validate d v = .invalid iss ∧ iss ≠ [] ∧ parse d v = .error ⟨iss⟩) := by
  unfold parse
  cases h : validate d v with
  | valid w => exact Or.inl ⟨w, rfl, rfl⟩
  | invalid iss => exact Or.inr ⟨iss, rfl, validate_invalid_nonempty d v iss h, rfl⟩

/-- C3: for every union descriptor and every present non-null input,
candidates are tried in declared order and the first Valid outcome is
returned; if every candidate fails, the outcome is Invalid with a single
aggregating issue of kind no_union_member_matched referencing all
candidates' failures. -/
theorem union_first_valid_or_aggregate (cs : DescList) (v : Value)
    (hu : v ≠ .undef) (hn : v ≠ .nullV) :
    validate (.unionD cs) v =
      match firstValid (outcomesOf cs v) with
      | some o => o
      | none => .invalid [Issue.mk [] IssueKind.noUnionMemberMatched
          "no union member matched the input" (collectIssues (outcomesOf cs v))] := by
  rw [validate_union_eq]
  unfold presenceGuard
  rw [if_neg hu, if_neg hn, validateUnion_eq_spec]
  simp

/-- Witness for C3 at the union of the source's UserSchemaThree id field:
the input true is rejected with one aggregating issue referencing both
candidate failures. -/
theorem union_first_valid_or_aggregate_witness :
    validate (.unionD (DescList.ofList [.strD [], .numD []])) (.boolV true) =
      match firstValid (outcomesOf (DescList.ofList [.strD [], .numD []]) (.boolV true)) with
      | some o => o
      | none => .invalid [Issue.mk [] IssueKind.noUnionMemberMatched
          "no union member matched the input"
          (collectIssues (outcomesOf (DescList.ofList [.strD [], .numD []]) (.boolV true)))] :=
  union_first_valid_or_aggregate _ _ (by decide) (by decide)

/-- C4: for every discriminated-union descriptor and every object input,
when the discriminator field is missing or not one of the known branch
tags the outcome is unknown_discriminator regardless of the rest of the
payload; otherwise the outcome is that of validating exactly the selected
branch, so no other branch is attempted. -/
theorem dunion_unknown_or_selected_branch (disc : String) (bs : Branches) (m : VFields) :
    validate (.dunionD disc bs) (.obj m) =
      match findBranch ((lookupField disc m.toList).getD .undef) bs with
      | some bd => validate bd (.obj m)
      | none => .invalid [Issue.mk [Seg.field disc] IssueKind.unknownDiscriminator
          "unknown discriminator value" []] := by
  rw [validate_dunion_eq, validateBranches_eq_find]

/- Builders are pure functions on descriptor values: each returns a new
descriptor and the input descriptor is embedded in (or recoverable from)
the result unchanged. -/

theorem optionalD_ne (d : Desc) : Desc.optionalD d ≠ d := by
  intro h
  have hs := congrArg sizeOf h
  simp at hs

theorem nullableD_ne (d : Desc) : Desc.nullableD d ≠ d := by
  intro h
  have hs := congrArg sizeOf h
  simp at hs

theorem nullishD_ne (d : Desc) : Desc.nullishD d ≠ d := by
  intro h
  have hs := congrArg sizeOf h
  simp at hs

theorem defaultD_ne (dflt : Value) (d : Desc) : Desc.defaultD dflt d ≠ d := by
  intro h
  have hs := congrArg sizeOf h
  simp at hs

/-- C9: every descriptor builder operation returns a new descriptor value
and leaves its input descriptor unchanged: the wrapping builders yield a
descriptor distinct from their input with the input recoverable intact,
and the object builders carry the input components unmodified, so a
descriptor can be reused and shared across validations. -/
theorem builders_pure_and_nonmutating (d : Desc) (dflt : Value)
    (flds : Fields) (p : KeyPolicy) (names : List String) (extra : Fields) :
    (optionalB d = .optionalD d ∧ optionalB d ≠ d ∧ innerOf (optionalB d) = some d) ∧
    (nullableB d = .nullableD d ∧ nullableB d ≠ d ∧ innerOf (nullableB d) = some d) ∧
    (nullishB d ≠ d ∧ innerOf (nullishB d) = some d) ∧
    (defaultB dflt d ≠ d ∧ innerOf (defaultB dflt d) = some d) ∧
    (strictB (.objD flds p) = .objD flds .strictP ∧
      fieldsOfD (strictB (.objD flds p)) = some flds) ∧
    (passthroughB (.objD flds p) = .objD flds .passthroughP ∧
      fieldsOfD (passthroughB (.objD flds p)) = some flds) ∧
    allOptional (.objD flds p) = .objD (allOptionalFields flds) p ∧
    pickB names (.objD flds p) = .objD (keepFields names flds) p ∧
    omitB names (.objD flds p) = .objD (dropFields names flds) p ∧
    extendB extra (.objD flds p)
      = .objD (appendFields (dropFields (fieldNames extra) flds) extra) p ∧
    mergeB (.objD extra p) (.objD flds p)
      = .objD (appendFields (dropFields (fieldNames extra) flds) extra) p :=
  ⟨⟨rfl, optionalD_ne d, rfl⟩, ⟨rfl, nullableD_ne d, rfl⟩, ⟨nullishD_ne d, rfl⟩,
   ⟨defaultD_ne dflt d, rfl⟩, ⟨rfl, rfl⟩, ⟨rfl, rfl⟩, rfl, rfl, rfl, rfl, rfl⟩

/- The `.partial()` builder makes every previously-required field accept
absence. -/

theorem allOptionalFields_lookup : ∀ (flds : Fields) (n : String),
    lookupFieldDesc n (allOptionalFields flds) = (lookupFieldDesc n flds).map Desc.optionalD
  | .fnil, _ => rfl
  | .fcons m d rest, n => by
    simp only [allOptionalFields, lookupFieldDesc]
    by_cases h : m = n
    · simp [h]
    · simp [h, allOptionalFields_lookup rest n]

theorem validateFields_allOptional_empty : ∀ (flds : Fields),
    validateFields (allOptionalFields flds) [] = ([], [])
  | .fnil => rfl
  | .fcons n d rest => by
    have ih := validateFields_allOptional_empty rest
    calc validateFields (allOptionalFields (.fcons n d rest)) []
        = validateFields (allOptionalFields rest) [] := rfl
      _ = ([], []) := ih

/-- C7: applying the `.partial()` builder to an object descriptor wraps
every direct field descriptor in Optional (one level only), so every
previously-required field of the resulting descriptor accepts absence
without error: in particular the object with all fields absent validates
successfully. -/
theorem allOptional_fields_accept_absence (flds : Fields) (p : KeyPolicy) (n : String) :
    allOptional (.objD flds p) = .objD (allOptionalFields flds) p ∧
    lookupFieldDesc n (allOptionalFields flds) = (lookupFieldDesc n flds).map Desc.optionalD ∧
    validate (allOptional (.objD flds p)) (vobj []) = .valid (vobj []) := by
  refine ⟨rfl, allOptionalFields_lookup flds n, ?_⟩
  show validate (.objD (allOptionalFields flds) p) (.obj .fnil) = .valid (.obj .fnil)
  rw [validate_obj_eq]
  unfold objBody
  rw [show VFields.toList .fnil = [] from rfl, validateFields_allOptional_empty]
  cases p <;> rfl

/-- C10: the discriminated union composes below the object root: the
source's UserSchemaFour nests it inside the id field, and the sample
userFour input validates successfully via the non-throwing entry point. -/
theorem userSchemaFour_nested_dunion_succeeds :
    safeParse UserSchemaFour userFour = .success userFour := rfl

/- Round-trip lemmas between list views and the mutual value family. -/

theorem vfields_toList_ofList : ∀ (l : List (String × Value)), (VFields.ofList l).toList = l
  | [] => rfl
  | (n, v) :: rest => by simp [VFields.ofList, VFields.toList, vfields_toList_ofList rest]

theorem vlist_toList_ofList : ∀ (l : List Value), (VList.ofList l).toList = l
  | [] => rfl
  | v :: rest => by simp [VList.ofList, VList.toList, vlist_toList_ofList rest]

theorem emptyGate_valid (iss : List Issue) (w y : Value) (h : emptyGate iss w = .valid y) :
    iss = [] ∧ y = w := by
  unfold emptyGate at h
  split at h
  · next he => exact ⟨List.isEmpty_iff.mp he, by cases h; rfl⟩
  · cases h

theorem emptyGate_of_ne_nil (iss : List Issue) (w : Value) (h : iss ≠ []) :
    emptyGate iss w = .invalid iss := by
  unfold emptyGate
  rw [if_neg]
  simpa [List.isEmpty_iff] using h

theorem emptyGate_nil (w : Value) : emptyGate [] w = .valid w := rfl

/-- The collected issues of an object's declared fields decompose one
field at a time, whether or not the field fails. -/
theorem validateFields_fst_cons (n : String) (d : Desc) (rest : Fields)
    (m : List (String × Value)) :
    (validateFields (.fcons n d rest) m).1
      = underSeg (Seg.field n) (validate d ((lookupField n m).getD .undef)).issuesOf
        ++ (validateFields rest m).1 := by
  simp only [validateFields]
  cases validate d ((lookupField n m).getD .undef) <;> simp [Outcome.issuesOf, underSeg]

/-- Boolean test for an unrecognized_key issue located exactly at the
given top-level key. -/
def isUnrecKeyAt (k : String) (i : Issue) : Bool :=
  i.kind == IssueKind.unrecognizedKey && i.path == [Seg.field k]

theorem underSeg_countP_unrec (n k : String) (iss : List Issue) (hne : n ≠ k) :
    (underSeg (Seg.field n) iss).countP (isUnrecKeyAt k) = 0 := by
  apply List.countP_eq_zero.mpr
  intro i hi
  simp only [underSeg, List.mem_map] at hi
  obtain ⟨j, _, rfl⟩ := hi
  simp [isUnrecKeyAt, Issue.path, Issue.kind, hne]

theorem countP_validateFields_unrec_zero : ∀ (flds : Fields) (m : List (String × Value))
    (k : String), k ∉ fieldNames flds →
    ((validateFields flds m).1.countP (isUnrecKeyAt k)) = 0
  | .fnil, _, _, _ => rfl
  | .fcons n d rest, m, k, hk => by
    simp only [fieldNames, List.mem_cons] at hk
    push_neg at hk
    rw [validateFields_fst_cons, List.countP_append,
      underSeg_countP_unrec n k _ hk.1.symm, countP_validateFields_unrec_zero rest m k hk.2]

theorem countP_strictIssues (k : String) (l : List (String × Value)) :
    (strictIssues l).countP (isUnrecKeyAt k) = l.countP (fun p => p.1 == k) := by
  unfold strictIssues
  rw [List.countP_map]
  congr 1
  funext p
  simp [isUnrecKeyAt, Issue.kind, Issue.path, Function.comp]

/-- C5: for every object descriptor under the strict unknown-key policy
and every object input (with set-like keys) containing a key not declared
in the descriptor, validate returns Invalid, with exactly one
unrecognized_key issue located at that key. -/
theorem strict_one_unrecognized_key_per_unknown (flds : Fields) (mf : VFields) (k : String)
    (hnodup : (keysOf mf.toList).Nodup) (hmem : k ∈ keysOf mf.toList)
    (hunk : k ∉ fieldNames flds) :
    ∃ iss, validate (.objD flds .strictP) (.obj mf) = .invalid iss ∧
      iss.countP (isUnrecKeyAt k) = 1 := by
  rw [validate_obj_eq]
  unfold objBody
  have hfz := countP_validateFields_unrec_zero flds mf.toList k hunk
  have hs : (strictIssues (mf.toList.filter
      (fun p => ! (fieldNames flds).contains p.1))).countP (isUnrecKeyAt k) = 1 := by
    rw [countP_strictIssues, List.countP_filter]
    have hpred : (mf.toList.countP fun p =>
        (p.1 == k) && ! (fieldNames flds).contains p.1) = mf.toList.countP (fun p => p.1 == k) := by
      apply List.countP_congr
      intro p _
      by_cases hp : p.1 = k
      · subst hp
        simpa using hunk
      · simp [hp]
    rw [hpred]
    have hmap : mf.toList.countP (fun p => p.1 == k) = (keysOf mf.toList).countP (· == k) := by
      unfold keysOf
      rw [List.countP_map]
      rfl
    rw [hmap, ← List.count_eq_countP, List.count_eq_one_of_mem hnodup hmem]
  have hcnt : ((validateFields flds mf.toList).1 ++ strictIssues (mf.toList.filter
      (fun p => ! (fieldNames flds).contains p.1))).countP (isUnrecKeyAt k) = 1 := by
    rw [List.countP_append, hfz, hs]
  refine ⟨_, emptyGate_of_ne_nil _ _ ?_, hcnt⟩
  intro h0
  rw [h0] at hcnt
  simp at hcnt

/-- Witness for C5: the source's strict UserSchemaThree with the
commented-out extra field age yields Invalid with exactly one
unrecognized_key issue at path age. -/
theorem strict_one_unrecognized_key_per_unknown_witness :
    ∃ iss, validate UserSchemaThree userThreeWithAge = .invalid iss ∧
      iss.countP (isUnrecKeyAt "age") = 1 :=
  strict_one_unrecognized_key_per_unknown _ _ "age" (by decide) (by decide) (by decide)

/-- Every issue of a failing declared field, with the field name appended
to its path, appears among the collected field issues. -/
theorem mem_validateFields_fst : ∀ (flds : Fields) (m : List (String × Value)) (n : String)
    (d : Desc) (iss : List Issue),
    lookupFieldDesc n flds = some d →
    validate d ((lookupField n m).getD .undef) = .invalid iss →
    ∀ i ∈ iss, Issue.mk (Seg.field n :: i.path) i.kind i.msg i.sub ∈ (validateFields flds m).1
  | .fnil, _, _, _, _, hlk, _, _, _ => by cases hlk
  | .fcons n' d' rest, m, n, d, iss, hlk, hinv, i, hi => by
    rw [validateFields_fst_cons]
    simp only [lookupFieldDesc] at hlk
    by_cases h : n' = n
    · subst h
      rw [if_pos rfl] at hlk
      cases hlk
      apply List.mem_append_left
      rw [hinv]
      exact List.mem_map_of_mem _ hi
    · rw [if_neg h] at hlk
      exact List.mem_append_right _ (mem_validateFields_fst rest m n d iss hlk hinv i hi)

/-- C6: for every object descriptor, validation recursively validates
every declared field and collects all fields' issues, appending the field
name to each issue's path, before deciding the outcome: whenever any
declared field fails, the object outcome is Invalid and contains every
issue of that field with the field name appended, so several failing
fields each contribute their issues. -/
theorem object_collects_all_field_issues (flds : Fields) (policy : KeyPolicy) (mf : VFields)
    (n : String) (d : Desc) (iss : List Issue)
    (hlk : lookupFieldDesc n flds = some d)
    (hinv : validate d ((lookupField n mf.toList).getD .undef) = .invalid iss) :
    ∃ total, validate (.objD flds policy) (.obj mf) = .invalid total ∧
      ∀ i ∈ iss, Issue.mk (Seg.field n :: i.path) i.kind i.msg i.sub ∈ total := by
  rw [validate_obj_eq]
  unfold objBody
  have hne : iss ≠ [] := validate_invalid_nonempty d _ iss hinv
  have hmem := mem_validateFields_fst flds mf.toList n d iss hlk hinv
  have hfne : (validateFields flds mf.toList).1 ≠ [] := by
    intro h0
    cases iss with
    | nil => exact hne rfl
    | cons a l =>
      have := hmem a (List.mem_cons_self a l)
      rw [h0] at this
      cases this
  refine ⟨_, emptyGate_of_ne_nil _ _ ?_, fun i hi => List.mem_append_left _ (hmem i hi)⟩
  intro hap
  exact hfne (List.append_eq_nil.mp hap).1

/-- Witness for C6: the sample input of src/unnamed/part_000 fails its
absent age field, and the object outcome carries the corresponding issue
at path age. -/
theorem object_collects_all_field_issues_witness :
    ∃ total, validate UserSchemaOne userOne = .invalid total ∧
      ∀ i ∈ requiredIssue,
        Issue.mk (Seg.field "age" :: i.path) i.kind i.msg i.sub ∈ total :=
  object_collects_all_field_issues _ _ _ "age" (.numD []) requiredIssue rfl rfl

/- Round-trip idempotence on the sublanguage of strip-mode objects,
arrays and primitives (§8). -/

/-- Key lists without duplicates, as produced by JavaScript object
literals. -/
def nodupKeys : List String → Bool
  | [] => true
  | k :: rest => !(rest.contains k) && nodupKeys rest

/- The sublanguage of descriptors built purely from strip-mode objects
(with set-like field names), arrays and primitives. -/
mutual
def pureStrip : Desc → Bool
  | .strD _ => true
  | .numD _ => true
  | .boolD => true
  | .dateD => true
  | .objD flds .strip => pureStripFields flds && nodupKeys (fieldNames flds)
  | .arrD e _ => pureStrip e
  | _ => false
def pureStripFields : Fields → Bool
  | .fnil => true
  | .fcons _ d rest => pureStrip d && pureStripFields rest
end

theorem bool_and_split {a b : Bool} (h : (a && b) = true) : a = true ∧ b = true := by
  simp at h
  exact h

theorem presenceGuard_valid (v : Value) (k : Outcome) (w : Value)
    (h : presenceGuard v k = .valid w) : k = .valid w ∧ v ≠ .undef ∧ v ≠ .nullV := by
  unfold presenceGuard at h
  by_cases hu : v = .undef
  · rw [if_pos hu] at h
    cases h
  · rw [if_neg hu] at h
    by_cases hn : v = .nullV
    · rw [if_pos hn] at h
      cases h
    · rw [if_neg hn] at h
      exact ⟨h, hu, hn⟩

theorem refineOutcome_valid (refs : List Refinement) (v w : Value)
    (h : refineOutcome refs v = .valid w) : w = v := by
  unfold refineOutcome at h
  split at h
  · cases h
  · cases h
    rfl

theorem validate_str_eq (refs : List Refinement) (v : Value) :
    validate (.strD refs) v = validateStr refs v := rfl

theorem validate_num_eq (refs : List Refinement) (v : Value) :
    validate (.numD refs) v = validateNum refs v := rfl

theorem validate_bool_eq (v : Value) : validate .boolD v = validateBool v := rfl

theorem validate_date_eq (v : Value) : validate .dateD v = validateDate v := rfl

theorem validateStr_valid (refs : List Refinement) (v w : Value)
    (h : validateStr refs v = .valid w) : w = v ∧ v ≠ .undef := by
  unfold validateStr at h
  obtain ⟨hk, hu, _⟩ := presenceGuard_valid _ _ _ h
  refine ⟨?_, hu⟩
  cases v <;> first
    | exact refineOutcome_valid _ _ _ hk
    | cases hk

theorem validateNum_valid (refs : List Refinement) (v w : Value)
    (h : validateNum refs v = .valid w) : w = v ∧ v ≠ .undef := by
  unfold validateNum at h
  obtain ⟨hk, hu, _⟩ := presenceGuard_valid _ _ _ h
  refine ⟨?_, hu⟩
  cases v <;> first
    | exact refineOutcome_valid _ _ _ hk
    | cases hk

theorem validateBool_valid (v w : Value)
    (h : validateBool v = .valid w) : w = v ∧ v ≠ .undef := by
  unfold validateBool at h
  obtain ⟨hk, hu, _⟩ := presenceGuard_valid _ _ _ h
  refine ⟨?_, hu⟩
  cases v <;> cases hk <;> rfl

theorem validateDate_valid (v w : Value)
    (h : validateDate v = .valid w) : w = v ∧ v ≠ .undef := by
  unfold validateDate at h
  obtain ⟨hk, hu, _⟩ := presenceGuard_valid _ _ _ h
  refine ⟨?_, hu⟩
  cases v <;> cases hk <;> rfl

/-- General shape of object validation on an arbitrary input. -/
theorem validate_objD_eq (flds : Fields) (policy : KeyPolicy) (v : Value) :
    validate (.objD flds policy) v
      = presenceGuard v (match v with
          | .obj m => objBody flds policy m.toList
          | _ => .invalid (typeIssue "object")) := by
  cases v <;> rfl

/-- General shape of array validation on an arbitrary input. -/
theorem validate_arrD_eq (elemD : Desc) (checks : ArrayChecks) (v : Value) :
    validate (.arrD elemD checks) v
      = presenceGuard v (match v with
          | .arr vs => arrBody elemD checks vs.toList
          | _ => .invalid (typeIssue "array")) := by
  cases v <;> rfl

theorem objBody_strip_valid (flds : Fields) (ml : List (String × Value)) (y : Value)
    (h : objBody flds .strip ml = .valid y) :
    (validateFields flds ml).1 = [] ∧
    y = .obj (VFields.ofList (validateFields flds ml).2) := by
  have h2 : emptyGate ((validateFields flds ml).1 ++ [])
      (.obj (VFields.ofList ((validateFields flds ml).2 ++ []))) = .valid y := h
  rw [List.append_nil, List.append_nil] at h2
  obtain ⟨hnil, hy⟩ := emptyGate_valid _ _ _ h2
  exact ⟨hnil, hy⟩

theorem objBody_strip_of_fields (flds : Fields) (ml out : List (String × Value))
    (h : validateFields flds ml = ([], out)) :
    objBody flds .strip ml = .valid (.obj (VFields.ofList out)) := by
  have h2 : objBody flds .strip ml
      = emptyGate ((validateFields flds ml).1 ++ [])
          (.obj (VFields.ofList ((validateFields flds ml).2 ++ []))) := rfl
  rw [h2, h, List.append_nil, List.append_nil]
  exact emptyGate_nil _

theorem arrBody_valid (elemD : Desc) (checks : ArrayChecks) (xs : List Value) (y : Value)
    (h : arrBody elemD checks xs = .valid y) :
    indexedIssues 0 (xs.map (fun x => validate elemD x)) = [] ∧
    lengthIssues checks xs.length = [] ∧
    y = .arr (VList.ofList ((xs.map (fun x => validate elemD x)).map Outcome.valueOf)) := by
  have h2 : emptyGate
      (indexedIssues 0 (xs.map (fun x => validate elemD x)) ++
        lengthIssues checks (xs.map (fun x => validate elemD x)).length)
      (.arr (VList.ofList ((xs.map (fun x => validate elemD x)).map Outcome.valueOf)))
      = .valid y := h
  obtain ⟨hnil, hy⟩ := emptyGate_valid _ _ _ h2
  rw [List.append_eq_nil] at hnil
  rw [List.length_map] at hnil
  exact ⟨hnil.1, hnil.2, hy⟩

theorem consOut_of_ne_undef (n : String) (w : Value) (l : List (String × Value))
    (hw : w ≠ .undef) : consOut n w l = (n, w) :: l := by
  cases w <;> first | exact absurd rfl hw | rfl

/-- Pair-level decomposition of field validation at a cons cell. -/
theorem validateFields_pair_cons (n : String) (d : Desc) (rest : Fields)
    (m : List (String × Value)) :
    validateFields (.fcons n d rest) m =
      match validate d ((lookupField n m).getD .undef) with
      | .valid w => ((validateFields rest m).1, consOut n w (validateFields rest m).2)
      | .invalid iss =>
        (underSeg (Seg.field n) iss ++ (validateFields rest m).1, (validateFields rest m).2) := by
  simp only [validateFields]

theorem indexedIssues_eq_nil : ∀ (i : Nat) (rs : List Outcome),
    indexedIssues i rs = [] ↔ ∀ r ∈ rs, r.issuesOf = []
  | _, [] => by simp [indexedIssues]
  | i, r :: rest => by
    simp only [indexedIssues, List.append_eq_nil, List.mem_cons]
    rw [indexedIssues_eq_nil (i + 1) rest]
    constructor
    · rintro ⟨h1, h2⟩ a (rfl | ha)
      · simpa [underSeg] using h1
      · exact h2 a ha
    · intro h
      refine ⟨?_, fun a ha => h a (Or.inr ha)⟩
      simp [underSeg, h r (Or.inl rfl)]

theorem valid_of_issuesOf_nil (d : Desc) (v : Value)
    (h : (validate d v).issuesOf = []) :
    validate d v = .valid ((validate d v).valueOf) := by
  cases hv : validate d v with
  | valid w => rfl
  | invalid iss =>
    rw [hv] at h
    exact absurd h (validate_invalid_nonempty d v iss hv)

/-- A valid outcome of a strip-sublanguage descriptor is never the absent
value: primitives echo their input (which passed the presence check) and
containers rebuild an object or array. -/
theorem pureStrip_valid_not_undef : ∀ (d : Desc) (v w : Value),
    pureStrip d = true → validate d v = .valid w → w ≠ .undef := by
  intro d v w hp h
  cases d with
  | strD refs =>
    rw [validate_str_eq] at h
    obtain ⟨hw, hu⟩ := validateStr_valid _ _ _ h
    rw [hw]
    exact hu
  | numD refs =>
    rw [validate_num_eq] at h
    obtain ⟨hw, hu⟩ := validateNum_valid _ _ _ h
    rw [hw]
    exact hu
  | boolD =>
    rw [validate_bool_eq] at h
    obtain ⟨hw, hu⟩ := validateBool_valid _ _ h
    rw [hw]
    exact hu
  | dateD =>
    rw [validate_date_eq] at h
    obtain ⟨hw, hu⟩ := validateDate_valid _ _ h
    rw [hw]
    exact hu
  | objD flds policy =>
    cases policy with
    | passthroughP => exact Bool.noConfusion hp
    | strictP => exact Bool.noConfusion hp
    | strip =>
      rw [validate_objD_eq] at h
      cases v
      case obj mf =>
        have hk : objBody flds KeyPolicy.strip mf.toList = .valid w :=
          (presenceGuard_valid _ _ _ h).1
        obtain ⟨_, hy⟩ := objBody_strip_valid _ _ _ hk
        rw [hy]
        simp
      all_goals exact Outcome.noConfusion (presenceGuard_valid _ _ _ h).1
  | arrD e c =>
    rw [validate_arrD_eq] at h
    cases v
    case arr vs =>
      have hk : arrBody e c vs.toList = .valid w := (presenceGuard_valid _ _ _ h).1
      obtain ⟨_, _, hy⟩ := arrBody_valid _ _ _ _ hk
      rw [hy]
      simp
    all_goals exact Outcome.noConfusion (presenceGuard_valid _ _ _ h).1
  | errInstD => exact Bool.noConfusion hp
  | litD x => exact Bool.noConfusion hp
  | enumD l => exact Bool.noConfusion hp
  | optionalD i => exact Bool.noConfusion hp
  | nullableD i => exact Bool.noConfusion hp
  | nullishD i => exact Bool.noConfusion hp
  | defaultD dv i => exact Bool.noConfusion hp
  | tupleD items => exact Bool.noConfusion hp
  | unionD cands => exact Bool.noConfusion hp
  | dunionD disc bs => exact Bool.noConfusion hp
  | recordD kd vd => exact Bool.noConfusion hp
  | mapD kd vd => exact Bool.noConfusion hp

/-- An array body whose elements each revalidate to themselves and whose
length passes the constraints is valid with the same elements. -/
theorem arrBody_of_selfvalid (e : Desc) (c : ArrayChecks) (ws : List Value)
    (hvv : ∀ w ∈ ws, validate e w = .valid w)
    (hlen : lengthIssues c ws.length = []) :
    arrBody e c ws = .valid (.arr (VList.ofList ws)) := by
  have hmap : ws.map (fun x => validate e x) = ws.map Outcome.valid :=
    List.map_congr_left hvv
  have h2 : arrBody e c ws
      = emptyGate (indexedIssues 0 (ws.map (fun x => validate e x)) ++
          lengthIssues c (ws.map (fun x => validate e x)).length)
        (.arr (VList.ofList ((ws.map (fun x => validate e x)).map Outcome.valueOf))) := rfl
  rw [h2, hmap]
  have hidx0 : indexedIssues 0 (ws.map Outcome.valid) = [] := by
    apply (indexedIssues_eq_nil _ _).mpr
    intro r hr
    obtain ⟨w, _, rfl⟩ := List.mem_map.mp hr
    rfl
  rw [hidx0, List.length_map, hlen, List.map_map]
  have hcomp : (Outcome.valueOf ∘ Outcome.valid) = id := by
    funext w
    rfl
  rw [hcomp, List.map_id]
  exact emptyGate_nil _

mutual

theorem pureStrip_idem : ∀ (d : Desc) (x y : Value),
    pureStrip d = true → validate d x = .valid y → validate d y = .valid y
  | .strD refs, x, y, _, h => by
    rw [validate_str_eq] at h ⊢
    obtain ⟨hw, _⟩ := validateStr_valid _ _ _ h
    rw [hw] at h ⊢
    exact h
  | .numD refs, x, y, _, h => by
    rw [validate_num_eq] at h ⊢
    obtain ⟨hw, _⟩ := validateNum_valid _ _ _ h
    rw [hw] at h ⊢
    exact h
  | .boolD, x, y, _, h => by
    rw [validate_bool_eq] at h ⊢
    obtain ⟨hw, _⟩ := validateBool_valid _ _ h
    rw [hw] at h ⊢
    exact h
  | .dateD, x, y, _, h => by
    rw [validate_date_eq] at h ⊢
    obtain ⟨hw, _⟩ := validateDate_valid _ _ h
    rw [hw] at h ⊢
    exact h
  | .objD flds policy, x, y, hp, h => by
    cases policy with
    | passthroughP => exact Bool.noConfusion hp
    | strictP => exact Bool.noConfusion hp
    | strip =>
      have hp2 : pureStripFields flds = true ∧ nodupKeys (fieldNames flds) = true := by
        have h2 : (pureStripFields flds && nodupKeys (fieldNames flds)) = true := hp
        exact bool_and_split h2
      rw [validate_objD_eq] at h
      cases x
      case obj mf =>
        have hk : objBody flds KeyPolicy.strip mf.toList = .valid y :=
          (presenceGuard_valid _ _ _ h).1
        obtain ⟨hfst, hy⟩ := objBody_strip_valid _ _ _ hk
        have hpair : validateFields flds mf.toList
            = ([], (validateFields flds mf.toList).2) := by
          rw [← hfst]
        have hrevalid := pureStripFields_idem flds mf.toList hp2.1 hp2.2
          (validateFields flds mf.toList).2 hpair
          (validateFields flds mf.toList).2 (fun _ _ => rfl)
        rw [hy, validate_obj_eq, vfields_toList_ofList]
        exact objBody_strip_of_fields flds _ _ hrevalid
      all_goals exact Outcome.noConfusion (presenceGuard_valid _ _ _ h).1
  | .arrD e c, x, y, hp, h => by
    have hpe : pureStrip e = true := hp
    rw [validate_arrD_eq] at h
    cases x
    case arr vs =>
      have hk : arrBody e c vs.toList = .valid y := (presenceGuard_valid _ _ _ h).1
      obtain ⟨hidx, hlen, hy⟩ := arrBody_valid _ _ _ _ hk
      have hvalid : ∀ x2 ∈ vs.toList, validate e x2 = .valid ((validate e x2).valueOf) := by
        intro x2 hx2
        exact valid_of_issuesOf_nil e x2
          ((indexedIssues_eq_nil 0 _).mp hidx (validate e x2) (List.mem_map_of_mem _ hx2))
      have hre : ∀ w ∈ (vs.toList.map (fun x2 => validate e x2)).map Outcome.valueOf,
          validate e w = .valid w := by
        intro w hw
        rw [List.map_map] at hw
        obtain ⟨x2, hx2, rfl⟩ := List.mem_map.mp hw
        exact pureStrip_idem e x2 _ hpe (hvalid x2 hx2)
      rw [hy, validate_arr_eq, vlist_toList_ofList]
      apply arrBody_of_selfvalid e c _ hre
      have hlw : ((vs.toList.map (fun x2 => validate e x2)).map Outcome.valueOf).length
          = vs.toList.length := by
        simp
      rw [hlw]
      exact hlen
    all_goals exact Outcome.noConfusion (presenceGuard_valid _ _ _ h).1
  | .errInstD, _, _, hp, _ => Bool.noConfusion hp
  | .litD _, _, _, hp, _ => Bool.noConfusion hp
  | .enumD _, _, _, hp, _ => Bool.noConfusion hp
  | .optionalD _, _, _, hp, _ => Bool.noConfusion hp
  | .nullableD _, _, _, hp, _ => Bool.noConfusion hp
  | .nullishD _, _, _, hp, _ => Bool.noConfusion hp
  | .defaultD _ _, _, _, hp, _ => Bool.noConfusion hp
  | .tupleD _, _, _, hp, _ => Bool.noConfusion hp
  | .unionD _, _, _, hp, _ => Bool.noConfusion hp
  | .dunionD _ _, _, _, hp, _ => Bool.noConfusion hp
  | .recordD _ _, _, _, hp, _ => Bool.noConfusion hp
  | .mapD _ _, _, _, hp, _ => Bool.noConfusion hp

theorem pureStripFields_idem : ∀ (flds : Fields) (m : List (String × Value)),
    pureStripFields flds = true → nodupKeys (fieldNames flds) = true →
    ∀ out, validateFields flds m = ([], out) →
    ∀ M : List (String × Value),
      (∀ n, n ∈ fieldNames flds → lookupField n M = lookupField n out) →
      validateFields flds M = ([], out)
  | .fnil, m, _, _, out, heq, M, _ => by
    have hout : out = [] := by
      have h2 : (([], []) : List Issue × List (String × Value)) = ([], out) := heq
      exact (congrArg Prod.snd h2).symm
    subst hout
    rfl
  | .fcons n d rest, m, hp, hnd, out, heq, M, hag => by
    have hp2 : pureStrip d = true ∧ pureStripFields rest = true := by
      have h2 : (pureStrip d && pureStripFields rest) = true := hp
      exact bool_and_split h2
    have hnd2 : n ∉ fieldNames rest ∧ nodupKeys (fieldNames rest) = true := by
      have h2 : (!(fieldNames rest).contains n && nodupKeys (fieldNames rest)) = true := hnd
      obtain ⟨ha, hb⟩ := bool_and_split h2
      exact ⟨by simpa using ha, hb⟩
    rw [validateFields_pair_cons] at heq
    cases hr : validate d ((lookupField n m).getD .undef) with
    | invalid iss =>
      rw [hr] at heq
      have heq2 : (underSeg (Seg.field n) iss ++ (validateFields rest m).1,
          (validateFields rest m).2) = (([] : List Issue), out) := heq
      injection heq2 with hfst _
      rw [List.append_eq_nil] at hfst
      have hiss : iss = [] := List.map_eq_nil_iff.mp hfst.1
      exact absurd hiss (validate_invalid_nonempty d _ iss hr)
    | valid w =>
      rw [hr] at heq
      have hwne : w ≠ .undef := pureStrip_valid_not_undef d _ w hp2.1 hr
      have heq2 : ((validateFields rest m).1, consOut n w (validateFields rest m).2)
          = (([] : List Issue), out) := heq
      rw [consOut_of_ne_undef n w _ hwne] at heq2
      injection heq2 with hfst hsnd
      have hpair : validateFields rest m = ([], (validateFields rest m).2) := by
        rw [← hfst]
      have hlookout : lookupField n out = some w := by
        rw [← hsnd]
        simp [lookupField]
      have hrestag : ∀ n2, n2 ∈ fieldNames rest →
          lookupField n2 M = lookupField n2 (validateFields rest m).2 := by
        intro n2 hn2
        have hne : n ≠ n2 := fun hcontra => hnd2.1 (hcontra ▸ hn2)
        have h4 := hag n2 (List.mem_cons_of_mem _ hn2)
        rw [h4, ← hsnd]
        simp [lookupField, hne]
      have hrest := pureStripFields_idem rest m hp2.2 hnd2.2
        (validateFields rest m).2 hpair M hrestag
      have hlookM : lookupField n M = some w := by
        rw [hag n (List.mem_cons_self _ _), hlookout]
      rw [validateFields_pair_cons, hlookM]
      show (match validate d w with
        | .valid w2 => ((validateFields rest M).1, consOut n w2 (validateFields rest M).2)
        | .invalid iss =>
          (underSeg (Seg.field n) iss ++ (validateFields rest M).1,
            (validateFields rest M).2)) = ([], out)
      rw [pureStrip_idem d _ w hp2.1 hr]
      show ((validateFields rest M).1, consOut n w (validateFields rest M).2) = ([], out)
      rw [hrest]
      show ([], consOut n w (validateFields rest m).2) = ([], out)
      rw [consOut_of_ne_undef n w _ hwne, hsnd]

end

/-- C8: for every descriptor built purely from strip-mode objects, arrays
and primitives, validation is idempotent: whenever the first validation
succeeds, revalidating its normalized value gives the same outcome, so
validate(d, validate(d, x).value) equals validate(d, x). -/
theorem strip_validate_idempotent (d : Desc) (x y : Value)
    (hp : pureStrip d = true) (hv : validate d x = .valid y) :
    validate d ((validate d x).valueOf) = validate d x := by
  rw [hv]
  show validate d y = .valid y
  exact pureStrip_idem d x y hp hv

/-- Sample valid input for UserSchemaOne, carrying an extra key that the
strip policy drops from the normalized output. -/
def userOneComplete : Value :=
  vobj [("username", .str "JDoe"), ("age", .num 30), ("birthdate", .dateV 631152000),
        ("isProgrammer", .boolV true), ("extra", .str "dropped")]

/-- Witness for C8: UserSchemaOne is in the strip sublanguage, the
completed sample input validates, and revalidating the normalized output
reproduces the same outcome. -/
theorem strip_validate_idempotent_witness :
    pureStrip UserSchemaOne = true ∧
    validate UserSchemaOne
        ((validate UserSchemaOne userOneComplete).valueOf)
      = validate UserSchemaOne userOneComplete :=
  ⟨by decide, strip_validate_idempotent UserSchemaOne userOneComplete
    (vobj [("username", .str "JDoe"), ("age", .num 30), ("birthdate", .dateV 631152000),
           ("isProgrammer", .boolV true)]) (by decide) rfl⟩

end SchemaEngine
